import Mathlib

/-!
Shallow embedding of the backtester execution engine (src/engine.py and
src/models.py) over exact rational arithmetic, together with theorems
settling the specification claims about it.

Python floats are modelled as rationals, timestamps as naturals, uuid
generation as a deterministic counter threaded through the engine state.
Python truthiness on optional numeric and string fields (None and 0.0 and
the empty string are falsy) is modelled explicitly by the truthy functions.
-/

namespace Backtester

inductive Side where
  | LONG
  | SHORT
  | FLAT
  deriving DecidableEq

inductive OrderType where
  | MARKET
  | LIMIT
  | STOP
  | STOP_LIMIT
  deriving DecidableEq

inductive Status where
  | PENDING
  | FILLED
  | REJECTED
  | CANCELED
  deriving DecidableEq

/-- models.Order: an unfilled or settled instruction (dataclass fields with
their Python defaults; the tags dict is omitted as it is never read). -/
structure Order where
  strategy_name : String := ""
  symbol : String := ""
  side : Side := Side.FLAT
  order_type : OrderType := OrderType.MARKET
  qty : ℚ := 0
  cash_amount : ℚ := 0
  price : Option ℚ := none
  stop_price : Option ℚ := none
  limit_price : Option ℚ := none
  stop_loss_pct : Option ℚ := none
  limit_pct : Option ℚ := none
  stop_qty : Option ℚ := none
  limit_qty : Option ℚ := none
  revenge : ℚ := 0
  parent_id : Option String := none
  group_id : Option String := none
  commission : ℚ := 0
  swap : ℚ := 0
  id : String := ""
  status : Status := Status.PENDING
  created_at : Option Nat := none
  filled_at : Option Nat := none
  fill_price : ℚ := 0
  deriving DecidableEq

instance : Inhabited Order := ⟨{}⟩

/-- models.Trade: immutable fill-history entry. -/
structure Trade where
  trade_id : String
  order_id : String
  symbol : String
  side : Side
  qty : ℚ
  price : ℚ
  commission : ℚ
  time : Nat
  pnl : ℚ := 0
  deriving DecidableEq

/-- models.AssetVars: per-symbol position record. -/
structure AssetVars where
  symbol : String
  position_qty : ℚ := 0
  avg_entry_price : ℚ := 0
  last_price : ℚ := 0
  market_fee_bps : ℚ := 0
  limit_fee_bps : ℚ := 0
  deriving DecidableEq

/-- One OHLC bar row as consumed by ExecutionEngine.process_bar (volume is
never read by the engine). Field names follow the locals of process_bar. -/
structure Bar where
  time : Nat
  symbol : String
  open_p : ℚ
  high_p : ℚ
  low_p : ℚ
  close_p : ℚ
  deriving DecidableEq

/-- ExecutionEngine state: cash balance, margin divisor, the insertion-ordered
symbol-to-position map (association list), the open-order book, fill history,
equity curve, and a counter standing in for uuid generation. -/
structure EngineState where
  balance : ℚ
  equity : ℚ := 0
  initial : ℚ := 0
  margin : ℚ := 1
  portfolio : List (String × AssetVars) := []
  open_orders : List Order := []
  fill_history : List Trade := []
  equity_curve : List (Nat × ℚ) := []
  next_id : Nat := 0
  deriving DecidableEq

/-- Python truthiness of an optional float: None and 0.0 are falsy. -/
def truthy : Option ℚ → Bool
  | none => false
  | some x => x != 0

/-- Python truthiness of an optional string: None and the empty string are falsy. -/
def truthyS : Option String → Bool
  | none => false
  | some s => s != ""

/-- engine.q_epsilon = 1e-9. -/
def q_epsilon : ℚ := 1 / 1000000000

/-- Deterministic stand-in for str(uuid.uuid4())[:8]. -/
def genId (n : Nat) : String := "gen" ++ toString n

/-- models.Order.post-init validation: returns the error message raised, or
none when construction succeeds. The bracket-directive exclusivity checks use
Python truthiness, so a directive equal to 0.0 does not trigger them. -/
def postInit (o : Order) : Option String :=
  if (o.order_type = OrderType.LIMIT ∨ o.order_type = OrderType.STOP_LIMIT) ∧ o.price = none then
    some "Limit Orders must have a price."
  else if (o.order_type = OrderType.STOP ∨ o.order_type = OrderType.STOP_LIMIT) ∧ o.price = none then
    some "Stop Orders must have a price."
  else if o.qty ≤ 0 ∧ o.cash_amount ≤ 0 then
    some "Order must have positive qty OR cash_amount."
  else if 0 < o.qty ∧ 0 < o.cash_amount then
    some "Ambiguous Order: Cannot specify both qty and cash_amount."
  else if truthy o.stop_loss_pct ∧ truthy o.stop_price then
    some "Cannot specify both stop_loss_pct and stop_price."
  else if truthy o.limit_pct ∧ truthy o.limit_price then
    some "Cannot specify both limit_pct and limit_price."
  else none

/-- ExecutionEngine.check-fill: given an order and the bar's open/high/low,
decide whether and at what price it executes. A MARKET order sized by cash
amount has its quantity derived at resolution time, mutating the order, so the
(possibly updated) order is returned alongside the optional fill price. -/
def checkFill (o : Order) (open_p high_p low_p : ℚ) : Order × Option ℚ :=
  if o.order_type = OrderType.MARKET then
    let o := if o.cash_amount ≠ 0 then { o with qty := o.cash_amount / open_p } else o
    (o, some open_p)
  else
    let price := o.price.getD 0
    if o.order_type = OrderType.LIMIT then
      if o.side = Side.LONG ∧ low_p ≤ price then (o, some (min open_p price))
      else if o.side = Side.SHORT ∧ high_p ≥ price then (o, some (max open_p price))
      else (o, none)
    else if o.order_type = OrderType.STOP then
      if o.side = Side.SHORT then
        if open_p < price then (o, some open_p)
        else if low_p ≤ price then (o, some price)
        else (o, none)
      else if o.side = Side.LONG then
        if open_p > price then (o, some open_p)
        else if high_p ≥ price then (o, some price)
        else (o, none)
      else (o, none)
    else (o, none)

/-- Lookup in the portfolio association list (first match, like a dict). -/
def lookupAsset : List (String × AssetVars) → String → Option AssetVars
  | [], _ => none
  | (k, a) :: rest, sym => if k = sym then some a else lookupAsset rest sym

/-- In-place update of the portfolio entry for a symbol, if present. -/
def updAsset : List (String × AssetVars) → String → (AssetVars → AssetVars) → List (String × AssetVars)
  | [], _, _ => []
  | (k, a) :: rest, sym, f =>
    if k = sym then (k, f a) :: rest else (k, a) :: updAsset rest sym f

/-- The position/trade part of ExecutionEngine.execute-fill: given the
current asset record, the filled order, the fill price, the total fee, the
per-share fee and the time, compute the updated asset record, the Trades
emitted (in order) and the advanced uuid counter. Mirrors the LONG / SHORT
branches of the Python code, including the asymmetric epsilon snapping of
residual quantities. A FLAT side touches neither position nor trades. -/
def fillTrades (a : AssetVars) (o : Order) (price fee fee_per_share : ℚ) (time : Nat)
    (n : Nat) : AssetVars × List Trade × Nat :=
  if o.side = Side.LONG then
    if a.position_qty ≥ 0 then
      let new_qty := a.position_qty + o.qty
      let current_val := a.position_qty * a.avg_entry_price
      let fill_val := o.qty * price
      ({ a with avg_entry_price := (current_val + fill_val) / new_qty, position_qty := new_qty },
       [{ trade_id := genId n, order_id := o.id, symbol := o.symbol, side := Side.LONG,
          qty := o.qty, price := price, commission := fee, time := time, pnl := 0 }], n + 1)
    else
      let qty_closing := min |a.position_qty| o.qty
      let pnl := (a.avg_entry_price - price) * qty_closing
      let remaining_short := |a.position_qty| - o.qty
      let tr1 : Trade :=
        { trade_id := genId n, order_id := o.id, symbol := o.symbol, side := Side.LONG,
          qty := qty_closing, price := price, commission := qty_closing * fee_per_share,
          time := time, pnl := pnl }
      let remaining_short := if -q_epsilon < remaining_short ∧ remaining_short < q_epsilon then 0 else remaining_short
      if remaining_short < 0 then
        ({ a with position_qty := |remaining_short|, avg_entry_price := price },
         [tr1, { trade_id := genId (n + 1), order_id := o.id, symbol := o.symbol, side := Side.LONG,
                 qty := |remaining_short|, price := price, commission := |remaining_short| * fee_per_share,
                 time := time, pnl := 0 }], n + 2)
      else if remaining_short = 0 then
        ({ a with position_qty := 0, avg_entry_price := 0 }, [tr1], n + 1)
      else
        ({ a with position_qty := a.position_qty + o.qty }, [tr1], n + 1)
  else if o.side = Side.SHORT then
    if a.position_qty ≤ 0 then
      let current_qty := |a.position_qty|
      let new_qty := current_qty + o.qty
      let current_val := current_qty * a.avg_entry_price
      let fill_val := o.qty * price
      ({ a with avg_entry_price := (current_val + fill_val) / new_qty, position_qty := a.position_qty - o.qty },
       [{ trade_id := genId n, order_id := o.id, symbol := o.symbol, side := Side.SHORT,
          qty := o.qty, price := price, commission := fee, time := time, pnl := 0 }], n + 1)
    else
      let qty_closing := min a.position_qty o.qty
      let pnl := (price - a.avg_entry_price) * qty_closing
      let remaining_long := a.position_qty - o.qty
      let tr1 : Trade :=
        { trade_id := genId n, order_id := o.id, symbol := o.symbol, side := Side.SHORT,
          qty := qty_closing, price := price, commission := qty_closing * fee_per_share,
          time := time, pnl := pnl }
      let remaining_long := if 0 < remaining_long ∧ remaining_long < q_epsilon then 0 else remaining_long
      if remaining_long < 0 then
        ({ a with position_qty := remaining_long, avg_entry_price := price },
         [tr1, { trade_id := genId (n + 1), order_id := o.id, symbol := o.symbol, side := Side.SHORT,
                 qty := |remaining_long|, price := price, commission := |remaining_long| * fee_per_share,
                 time := time, pnl := 0 }], n + 2)
      else if remaining_long = 0 then
        ({ a with position_qty := 0, avg_entry_price := 0 }, [tr1], n + 1)
      else
        ({ a with position_qty := a.position_qty - o.qty }, [tr1], n + 1)
  else
    (a, [], n)

/-- The bracket-spawning tail of ExecutionEngine.execute-fill: after settling
the parent order, synthesize the STOP and/or LIMIT child orders. Directive
presence is Python truthiness, so a directive equal to 0.0 spawns nothing
through the outer check but still short-circuits to the pct path inside. -/
def bracketChildren (o : Order) (price : ℚ) (time : Nat) (n : Nat) : List Order × Nat :=
  let hasStop := truthy o.stop_price || truthy o.stop_loss_pct
  let stop_side := if o.side = Side.LONG then Side.SHORT else Side.LONG
  let sl_price :=
    if truthy o.stop_price then o.stop_price.getD 0
    else if stop_side = Side.SHORT then price * (1 - o.stop_loss_pct.getD 0)
    else price * (1 + o.stop_loss_pct.getD 0)
  let stops : List Order :=
    if hasStop then
      [{ strategy_name := o.strategy_name, symbol := o.symbol, side := stop_side,
         order_type := OrderType.STOP, price := some sl_price,
         qty := if truthy o.stop_qty then o.stop_qty.getD 0 else o.qty * (1 + o.revenge),
         group_id := some (if truthyS o.group_id then o.group_id.getD "" else o.id),
         id := genId n, status := Status.PENDING, created_at := some time }]
    else []
  let n1 := if hasStop then n + 1 else n
  let hasLimit := truthy o.limit_price || truthy o.limit_pct
  let limit_side := if o.side = Side.LONG then Side.SHORT else Side.LONG
  let lm_price :=
    if truthy o.limit_price then o.limit_price.getD 0
    else if limit_side = Side.SHORT then price * (1 + o.limit_pct.getD 0)
    else price * (1 - o.limit_pct.getD 0)
  let limits : List Order :=
    if hasLimit then
      [{ strategy_name := o.strategy_name, symbol := o.symbol, side := limit_side,
         order_type := OrderType.LIMIT, price := some lm_price,
         qty := if truthy o.limit_qty then o.limit_qty.getD 0 else o.qty,
         group_id := some (if truthyS o.group_id then o.group_id.getD "" else o.id),
         id := genId n1, status := Status.PENDING, created_at := some time }]
    else []
  let n2 := if hasLimit then n1 + 1 else n1
  (stops ++ limits, n2)

/-- The asset record execute-fill reads for the order's symbol (the Python
code indexes the portfolio dict; a missing symbol, which would raise there,
reads as a fresh zero record here and writes nothing back). -/
def assetOf (s : EngineState) (o : Order) : AssetVars :=
  (lookupAsset s.portfolio o.symbol).getD { symbol := o.symbol }

/-- Commission of a fill: notional times the symbol's limit or market fee
rate depending on the order kind. -/
def feeOf (a : AssetVars) (o : Order) (price : ℚ) : ℚ :=
  o.qty * price * (if o.order_type = OrderType.LIMIT then a.limit_fee_bps / 10000 else a.market_fee_bps / 10000)

/-- Per-share commission, guarded against zero quantity. -/
def fpsOf (a : AssetVars) (o : Order) (price : ℚ) : ℚ :=
  if o.qty > 0 then feeOf a o price / o.qty else 0

/-- ExecutionEngine.execute-fill: cash effect, position/trade accounting and
bracket spawning for one resolved fill. Returns the updated engine state
(children already appended to the order book) together with the settled order
(status FILLED, fill metadata recorded); the caller writes the settled order
back at its book index. -/
def executeFill (s : EngineState) (o : Order) (price : ℚ) (time : Nat) : EngineState × Order :=
  let asset := assetOf s o
  let fee := feeOf asset o price
  let balance1 :=
    if o.side = Side.LONG then s.balance - (o.qty * price + fee)
    else if o.side = Side.SHORT then s.balance + (o.qty * price - fee)
    else s.balance
  let res := fillTrades asset o price fee (fpsOf asset o price) time s.next_id
  let o1 : Order := { o with status := Status.FILLED, filled_at := some time, fill_price := price }
  let children := bracketChildren o1 price time res.2.2
  ({ s with balance := balance1,
            portfolio := updAsset s.portfolio o.symbol (fun _ => res.1),
            fill_history := s.fill_history ++ res.2.1,
            open_orders := s.open_orders ++ children.1,
            next_id := children.2 }, o1)

/-- ExecutionEngine.cancel-group: every still-PENDING order carrying exactly
this group id transitions to CANCELED (orders are not removed here). -/
def cancelGroup (s : EngineState) (gid : String) : EngineState :=
  { s with open_orders := s.open_orders.map (fun o =>
      if o.group_id = some gid ∧ o.status = Status.PENDING then { o with status := Status.CANCELED } else o) }

/-- The key/mark view of a portfolio: each entry's symbol with its stored
last price. Used to state that the fill loop never moves marks. -/
def marks (l : List (String × AssetVars)) : List (String × ℚ) :=
  l.map (fun p => (p.1, p.2.last_price))

/-- The engine state after one filled order inside the bar loop: the settled
order written back at its index (over the state already holding the bracket
children appended by execute-fill), then the one-cancels-other pass when the
filled order carries a truthy group id. -/
def fillStepState (s : EngineState) (i : Nat) (o1 : Order) (p : ℚ) (t : Nat) : EngineState :=
  let ex := executeFill { s with open_orders := s.open_orders.set i o1 } o1 p t
  let s2 := { ex.1 with open_orders := ex.1.open_orders.set i ex.2 }
  if truthyS ex.2.group_id then cancelGroup s2 (ex.2.group_id.getD "") else s2

/-- Result of the per-bar fill loop: the engine state plus ghost lists of the
orders that were examined for a fill (symbol match and PENDING, as seen at
examination time) and of the orders that filled (as settled). -/
structure LoopResult where
  state : EngineState
  examined : List Order
  filled : List Order
  deriving DecidableEq

/-- The fill loop of ExecutionEngine.process-bar. Python iterates the live
open-order list by index while execute-fill appends bracket children to it, so
children spawned during bar t are themselves examined in the same loop; the
recursion is fuelled, with process-bar supplying fuel that provably exceeds
the reachable list length (children never carry bracket directives). -/
def fillLoop : Nat → EngineState → Bar → Nat → LoopResult
  | 0, s, _, _ => ⟨s, [], []⟩
  | fuel + 1, s, b, i =>
    if i < s.open_orders.length then
      let o := s.open_orders.getD i default
      if o.symbol = b.symbol ∧ o.status = Status.PENDING then
        let cf := checkFill o b.open_p b.high_p b.low_p
        match cf.2 with
        | none =>
          let s1 := { s with open_orders := s.open_orders.set i cf.1 }
          let r := fillLoop fuel s1 b (i + 1)
          ⟨r.state, o :: r.examined, r.filled⟩
        | some p =>
          let o2 := (executeFill { s with open_orders := s.open_orders.set i cf.1 } cf.1 p b.time).2
          let r := fillLoop fuel (fillStepState s i cf.1 p b.time) b (i + 1)
          ⟨r.state, o :: r.examined, o2 :: r.filled⟩
      else
        let r := fillLoop fuel s b (i + 1)
        ⟨r.state, r.examined, r.filled⟩
    else ⟨s, [], []⟩

/-- ExecutionEngine.get-equity: cash balance plus the mark-to-market value of
every nonzero position at its stored last price. -/
def getEquity (s : EngineState) : ℚ :=
  s.balance + (s.portfolio.map (fun p =>
    if p.2.position_qty ≠ 0 then p.2.position_qty * p.2.last_price else 0)).sum

/-- ExecutionEngine.cleanup-orders: keep only still-PENDING orders. -/
def cleanupOrders (s : EngineState) : EngineState :=
  { s with open_orders := s.open_orders.filter (fun o => o.status = Status.PENDING) }

/-- The head of ExecutionEngine.process-bar: lazily register the bar's symbol
in the portfolio, then mark it at the bar's close. -/
def registerAndMark (s : EngineState) (b : Bar) : EngineState :=
  let s0 :=
    if lookupAsset s.portfolio b.symbol = none then
      { s with portfolio := s.portfolio ++ [(b.symbol, { symbol := b.symbol })] }
    else s
  { s0 with portfolio := updAsset s0.portfolio b.symbol (fun a => { a with last_price := b.close_p }) }

/-- ExecutionEngine.process-bar: lazily register the bar's symbol, mark it at
the bar's close, run the fill loop, append the equity snapshot, purge settled
orders. The ghost examined/filled lists of the loop are passed through. -/
def processBar (s : EngineState) (b : Bar) : LoopResult :=
  let s1 := registerAndMark s b
  let r := fillLoop (3 * s1.open_orders.length + 3) s1 b 0
  let e := getEquity r.state
  let s2 := { r.state with equity := e, equity_curve := r.state.equity_curve ++ [(b.time, e)] }
  ⟨cleanupOrders s2, r.examined, r.filled⟩

/-- ExecutionEngine.submit-order: stamp each order with the submission time,
force its status to PENDING and append it to the book. -/
def submitOrder (s : EngineState) (orders : List Order) (t : Nat) : EngineState :=
  { s with open_orders := s.open_orders ++ orders.map (fun o =>
      { o with created_at := some t, status := Status.PENDING }) }

/-- One iteration of ExecutionEngine.run: process the bar, then hand the bar
to the Strategy, whose resulting orders are submitted with the current bar's
timestamp. The strategy is modelled as a function of the post-bar engine
state and the bar. -/
def runStep (strat : EngineState → Bar → List Order) (s : EngineState) (b : Bar) : EngineState :=
  let r := processBar s b
  submitOrder r.state (strat r.state b) b.time

/-- ExecutionEngine.run: fold runStep over the bar sequence. -/
def runEngine (strat : EngineState → Bar → List Order) (s : EngineState) (bars : List Bar) : EngineState :=
  bars.foldl (runStep strat) s

/-- ExecutionEngine.get-available-funds: cash minus twice the entry value of
every short position, scaled by the reciprocal of the margin divisor. -/
def getAvailableFunds (s : EngineState) : ℚ :=
  let debt := (s.portfolio.map (fun p =>
    if p.2.position_qty < 0 then p.2.avg_entry_price * |p.2.position_qty| else 0)).sum
  (1 / s.margin) * (s.balance - 2 * debt)

/-! Concrete engine states, orders and bars used by witnesses and
counterexamples. -/

/-- A long position of one unit of symbol X entered at 100. -/
def assetLongX : AssetVars :=
  { symbol := "X", position_qty := 1, avg_entry_price := 100, last_price := 100 }

/-- Engine holding the long-one-at-100 position on X with 10000 cash. -/
def sLongX : EngineState := { balance := 10000, portfolio := [("X", assetLongX)] }

/-- A market sell of one unit of X. -/
def oSellOne : Order :=
  { symbol := "X", side := Side.SHORT, order_type := OrderType.MARKET, qty := 1, id := "c2" }

/-- A market sell of one unit of X plus five-tenths of a billionth: leaves a
residual short of magnitude below the 1e-9 epsilon. -/
def oSellDust : Order :=
  { symbol := "X", side := Side.SHORT, order_type := OrderType.MARKET,
    qty := 1 + 1 / 2000000000, id := "c5" }

/-- A pending stop-sell at 95 on X. -/
def oStop95 : Order :=
  { symbol := "X", side := Side.SHORT, order_type := OrderType.STOP, price := some 95,
    qty := 1, id := "st", status := Status.PENDING }

/-- Parent market buy of one X with a five percent stop-loss directive and no
group id: its fill spawns a stop child eligible the same bar. -/
def oParentBracket : Order :=
  { symbol := "X", side := Side.LONG, order_type := OrderType.MARKET, qty := 1,
    stop_loss_pct := some (1 / 20), id := "p1", status := Status.PENDING, created_at := some 0 }

/-- Engine with 10000 cash, a flat X book and the bracket parent pending. -/
def sBracket : EngineState :=
  { balance := 10000, portfolio := [("X", { symbol := "X" })],
    open_orders := [oParentBracket] }

/-- Bar for X that gaps nowhere: open 100, low 90, close 95 — the spawned
stop child at 95 triggers intrabar via the low. -/
def bBracket : Bar := { time := 1, symbol := "X", open_p := 100, high_p := 100, low_p := 90, close_p := 95 }

/-- Two pending market buys of X sharing the degenerate empty-string group id. -/
def sOcoEmpty : EngineState :=
  { balance := 10000, portfolio := [("X", { symbol := "X" })],
    open_orders :=
      [{ symbol := "X", side := Side.LONG, order_type := OrderType.MARKET, qty := 1,
         group_id := some "", id := "a1", status := Status.PENDING },
       { symbol := "X", side := Side.LONG, order_type := OrderType.MARKET, qty := 1,
         group_id := some "", id := "a2", status := Status.PENDING }] }

/-- A flat bar for X at price 100. -/
def bFlat100 : Bar := { time := 1, symbol := "X", open_p := 100, high_p := 100, low_p := 100, close_p := 100 }

/-- A fresh strategy order used by the no-lookahead witness. -/
def oW : Order :=
  { symbol := "X", side := Side.LONG, order_type := OrderType.MARKET, qty := 1, id := "w1" }

/-- A market order carrying both an explicit zero stop price and a stop-loss
percentage: both bracket directives are given, yet construction succeeds
because 0.0 is falsy in the Python exclusivity check. -/
def oBothStops : Order :=
  { symbol := "X", side := Side.LONG, order_type := OrderType.MARKET, qty := 1,
    stop_price := some 0, stop_loss_pct := some (1 / 20), id := "b8" }

/-- State of the bracket scenario after register-and-mark of the bar. -/
def sB1 : EngineState :=
  { balance := 10000, portfolio := [("X", { symbol := "X", last_price := 95 })],
    open_orders := [oParentBracket] }

/-- The bracket parent as settled by its market fill at 100 on bar time 1. -/
def oParentFilled : Order :=
  { oParentBracket with status := Status.FILLED, filled_at := some 1, fill_price := 100 }

/-- The stop child spawned by the parent fill: stop-sell one unit at 95,
grouped under the parent's id, created at the bar's time. -/
def oStopChild : Order :=
  { symbol := "X", side := Side.SHORT, order_type := OrderType.STOP, price := some 95,
    qty := 1, group_id := some "p1", id := genId 1, status := Status.PENDING,
    created_at := some 1 }

/-- Trade of the parent's market fill. -/
def trParent : Trade :=
  { trade_id := genId 0, order_id := "p1", symbol := "X", side := Side.LONG,
    qty := 1, price := 100, commission := 0, time := 1, pnl := 0 }

/-- State of the bracket scenario after the parent's fill (loop index 1). -/
def sB2 : EngineState :=
  { balance := 9900,
    portfolio := [("X", { symbol := "X", position_qty := 1, avg_entry_price := 100, last_price := 95 })],
    open_orders := [oParentFilled, oStopChild],
    fill_history := [trParent], next_id := 2 }

/-- The stop child as settled by its same-bar fill at 95. -/
def oChildFilled : Order :=
  { oStopChild with status := Status.FILLED, filled_at := some 1, fill_price := 95 }

/-- Trade of the child's stop fill: closes the long at a realized loss of 5. -/
def trChild : Trade :=
  { trade_id := genId 2, order_id := genId 1, symbol := "X", side := Side.SHORT,
    qty := 1, price := 95, commission := 0, time := 1, pnl := -5 }

/-- State of the bracket scenario after both fills (loop index 2). -/
def sB3 : EngineState :=
  { balance := 9995,
    portfolio := [("X", { symbol := "X", position_qty := 0, avg_entry_price := 0, last_price := 95 })],
    open_orders := [oParentFilled, oChildFilled],
    fill_history := [trParent, trChild], next_id := 3 }

end Backtester

namespace Backtester

/-! Shared helper lemmas. -/

theorem one_div_margin_mul (m x : ℚ) : (1 / m) * x = x / m := by
  rw [one_div, mul_comm, div_eq_mul_inv]

theorem debt_filter_sum (l : List (String × AssetVars))
    (h : ∀ p ∈ l, 0 ≤ p.2.avg_entry_price) :
    (l.map (fun p => if p.2.position_qty < 0 then p.2.avg_entry_price * |p.2.position_qty| else 0)).sum
      = ((l.filter (fun p => p.2.position_qty < 0)).map
          (fun p => |p.2.avg_entry_price * p.2.position_qty|)).sum := by
  induction l with
  | nil => rfl
  | cons hd tl ih =>
    have hhd : 0 ≤ hd.2.avg_entry_price := h hd (List.mem_cons_self hd tl)
    have htl : ∀ p ∈ tl, 0 ≤ p.2.avg_entry_price := fun p hp => h p (List.mem_cons_of_mem hd hp)
    by_cases hneg : hd.2.position_qty < 0
    · simp [List.filter_cons, hneg, ih htl, abs_mul, abs_of_nonneg hhd]
    · simp [List.filter_cons, hneg, ih htl]

/-- Claim C9: for every engine state (with nonnegative recorded entry
prices), the available-funds query returns
(cash − 2 × sum over short symbols of the absolute value of the short
position's entry value) / margin divisor; only symbols with negative
position quantity contribute, long positions contribute nothing. -/
theorem available_funds_formula (s : EngineState)
    (h : ∀ p ∈ s.portfolio, 0 ≤ p.2.avg_entry_price) :
    getAvailableFunds s
      = (s.balance - 2 * ((s.portfolio.filter (fun p => p.2.position_qty < 0)).map
          (fun p => |p.2.avg_entry_price * p.2.position_qty|)).sum) / s.margin := by
  unfold getAvailableFunds
  rw [one_div_margin_mul, debt_filter_sum s.portfolio h]

theorem available_funds_formula_witness :
    getAvailableFunds sLongX
      = (sLongX.balance - 2 * ((sLongX.portfolio.filter (fun p => p.2.position_qty < 0)).map
          (fun p => |p.2.avg_entry_price * p.2.position_qty|)).sum) / sLongX.margin :=
  available_funds_formula sLongX (by decide)

/-- Claim C6: for every pending STOP order with trigger price p and every
bar: on side SHORT the resolver fills at the bar's open when open < p, else
exactly at p when low ≤ p, else not at all; on side LONG symmetrically it
fills at the open when open > p, else at p when high ≥ p, else not at all. -/
theorem stop_order_fill_resolution (o : Order) (p open_p high_p low_p : ℚ)
    (h1 : o.order_type = OrderType.STOP) (h2 : o.price = some p) :
    (o.side = Side.SHORT →
      (checkFill o open_p high_p low_p).2
        = if open_p < p then some open_p else if low_p ≤ p then some p else none)
    ∧ (o.side = Side.LONG →
      (checkFill o open_p high_p low_p).2
        = if open_p > p then some open_p else if high_p ≥ p then some p else none) := by
  constructor <;> intro hside <;>
    simp only [checkFill, h1, h2, hside, Option.getD_some] <;>
    split_ifs <;> simp_all

theorem stop_order_fill_resolution_witness :
    ((oStop95.side = Side.SHORT →
      (checkFill oStop95 90 100 80).2
        = if (90:ℚ) < 95 then some 90 else if (80:ℚ) ≤ 95 then some 95 else none)
    ∧ (oStop95.side = Side.LONG →
      (checkFill oStop95 90 100 80).2
        = if (90:ℚ) > 95 then some 90 else if (100:ℚ) ≥ 95 then some 95 else none)) :=
  stop_order_fill_resolution oStop95 95 90 100 80 rfl rfl

/-- Claim C7: every executed fill charges commission equal to quantity times
fill price times the symbol's limit fee rate for LIMIT orders and its market
fee rate otherwise; a LONG fill decreases cash by exactly notional plus
commission and a SHORT fill increases it by exactly notional minus
commission. -/
theorem fill_cash_effect (s : EngineState) (o : Order) (price : ℚ) (t : Nat) (a : AssetVars)
    (ha : lookupAsset s.portfolio o.symbol = some a) :
    (o.side = Side.LONG →
      (executeFill s o price t).1.balance
        = s.balance - (o.qty * price
            + o.qty * price * (if o.order_type = OrderType.LIMIT
                then a.limit_fee_bps / 10000 else a.market_fee_bps / 10000)))
    ∧ (o.side = Side.SHORT →
      (executeFill s o price t).1.balance
        = s.balance + (o.qty * price
            - o.qty * price * (if o.order_type = OrderType.LIMIT
                then a.limit_fee_bps / 10000 else a.market_fee_bps / 10000))) := by
  constructor <;> intro hside <;> simp [executeFill, assetOf, feeOf, ha, hside]

theorem fill_cash_effect_witness :
    ((oSellOne.side = Side.LONG →
      (executeFill sLongX oSellOne 110 5).1.balance
        = sLongX.balance - (oSellOne.qty * 110
            + oSellOne.qty * 110 * (if oSellOne.order_type = OrderType.LIMIT
                then assetLongX.limit_fee_bps / 10000 else assetLongX.market_fee_bps / 10000)))
    ∧ (oSellOne.side = Side.SHORT →
      (executeFill sLongX oSellOne 110 5).1.balance
        = sLongX.balance + (oSellOne.qty * 110
            - oSellOne.qty * 110 * (if oSellOne.order_type = OrderType.LIMIT
                then assetLongX.limit_fee_bps / 10000 else assetLongX.market_fee_bps / 10000)))) :=
  fill_cash_effect sLongX oSellOne 110 5 assetLongX rfl

theorem lookup_updAsset_self (l : List (String × AssetVars)) (sym : String)
    (f : AssetVars → AssetVars) (a : AssetVars) (h : lookupAsset l sym = some a) :
    lookupAsset (updAsset l sym f) sym = some (f a) := by
  induction l with
  | nil => simp [lookupAsset] at h
  | cons hd tl ih =>
    obtain ⟨k, av⟩ := hd
    by_cases hk : k = sym
    · simp [lookupAsset, updAsset, hk] at h ⊢
      rw [h]
    · simp [lookupAsset, updAsset, hk] at h ⊢
      exact ih h

theorem fillTrades_short_close (a : AssetVars) (o : Order) (price fee fps : ℚ) (t n : Nat)
    (hside : o.side = Side.SHORT) (hpos : 0 < a.position_qty) (hle : o.qty ≤ a.position_qty) :
    (fillTrades a o price fee fps t n).2.1
      = [{ trade_id := genId n, order_id := o.id, symbol := o.symbol, side := Side.SHORT,
           qty := min a.position_qty o.qty, price := price,
           commission := min a.position_qty o.qty * fps, time := t,
           pnl := (price - a.avg_entry_price) * min a.position_qty o.qty }]
    ∧ (fillTrades a o price fee fps t n).2.2 = n + 1 := by
  simp only [fillTrades, hside]
  rw [if_neg (by decide : ¬(Side.SHORT = Side.LONG)), if_pos trivial, if_neg (not_le.mpr hpos)]
  by_cases hC : 0 < a.position_qty - o.qty ∧ a.position_qty - o.qty < q_epsilon
  · rw [if_pos hC, if_neg (lt_irrefl (0 : ℚ)), if_pos rfl]
    exact ⟨rfl, rfl⟩
  · rw [if_neg hC, if_neg (not_lt.mpr (by linarith))]
    by_cases h0 : a.position_qty - o.qty = 0
    · rw [if_pos h0]
      exact ⟨rfl, rfl⟩
    · rw [if_neg h0]
      exact ⟨rfl, rfl⟩

theorem fillTrades_short_flip (a : AssetVars) (o : Order) (price fee fps : ℚ) (t n : Nat)
    (hside : o.side = Side.SHORT) (hpos : 0 < a.position_qty) (hlt : a.position_qty < o.qty) :
    fillTrades a o price fee fps t n
      = ({ a with position_qty := a.position_qty - o.qty, avg_entry_price := price },
         [{ trade_id := genId n, order_id := o.id, symbol := o.symbol, side := Side.SHORT,
            qty := min a.position_qty o.qty, price := price,
            commission := min a.position_qty o.qty * fps, time := t,
            pnl := (price - a.avg_entry_price) * min a.position_qty o.qty },
          { trade_id := genId (n + 1), order_id := o.id, symbol := o.symbol, side := Side.SHORT,
            qty := o.qty - a.position_qty, price := price,
            commission := (o.qty - a.position_qty) * fps, time := t, pnl := 0 }], n + 2) := by
  have habs : |a.position_qty - o.qty| = o.qty - a.position_qty := by
    rw [abs_of_neg (by linarith), neg_sub]
  simp only [fillTrades, hside]
  rw [if_neg (by decide : ¬(Side.SHORT = Side.LONG)), if_pos trivial, if_neg (not_le.mpr hpos),
      if_neg (show ¬(0 < a.position_qty - o.qty ∧ a.position_qty - o.qty < q_epsilon) by
        rintro ⟨h1, h2⟩; linarith),
      if_pos (show a.position_qty - o.qty < 0 by linarith), habs]

theorem fillTrades_long_close (a : AssetVars) (o : Order) (price fee fps : ℚ) (t n : Nat)
    (hside : o.side = Side.LONG) (hneg : a.position_qty < 0)
    (hclose : o.qty < |a.position_qty| + q_epsilon) :
    (fillTrades a o price fee fps t n).2.1
      = [{ trade_id := genId n, order_id := o.id, symbol := o.symbol, side := Side.LONG,
           qty := min |a.position_qty| o.qty, price := price,
           commission := min |a.position_qty| o.qty * fps, time := t,
           pnl := (a.avg_entry_price - price) * min |a.position_qty| o.qty }]
    ∧ (fillTrades a o price fee fps t n).2.2 = n + 1 := by
  have heps : 0 < q_epsilon := by norm_num [q_epsilon]
  simp only [fillTrades, hside]
  rw [if_pos trivial, if_neg (not_le.mpr hneg)]
  by_cases hC : -q_epsilon < |a.position_qty| - o.qty ∧ |a.position_qty| - o.qty < q_epsilon
  · rw [if_pos hC, if_neg (lt_irrefl (0 : ℚ)), if_pos rfl]
    exact ⟨rfl, rfl⟩
  · have hge : q_epsilon ≤ |a.position_qty| - o.qty := by
      rcases not_and_or.mp hC with h | h
      · push_neg at h
        linarith
      · push_neg at h
        exact h
    rw [if_neg hC, if_neg (not_lt.mpr (by linarith)),
        if_neg (show ¬(|a.position_qty| - o.qty = 0) from fun h0 => by
          rw [h0] at hge; linarith)]
    exact ⟨rfl, rfl⟩

theorem fillTrades_long_flip (a : AssetVars) (o : Order) (price fee fps : ℚ) (t n : Nat)
    (hside : o.side = Side.LONG) (hneg : a.position_qty < 0)
    (hflip : |a.position_qty| + q_epsilon ≤ o.qty) :
    fillTrades a o price fee fps t n
      = ({ a with position_qty := o.qty - |a.position_qty|, avg_entry_price := price },
         [{ trade_id := genId n, order_id := o.id, symbol := o.symbol, side := Side.LONG,
            qty := min |a.position_qty| o.qty, price := price,
            commission := min |a.position_qty| o.qty * fps, time := t,
            pnl := (a.avg_entry_price - price) * min |a.position_qty| o.qty },
          { trade_id := genId (n + 1), order_id := o.id, symbol := o.symbol, side := Side.LONG,
            qty := o.qty - |a.position_qty|, price := price,
            commission := (o.qty - |a.position_qty|) * fps, time := t, pnl := 0 }], n + 2) := by
  have heps : 0 < q_epsilon := by norm_num [q_epsilon]
  have habs : |(|a.position_qty| - o.qty)| = o.qty - |a.position_qty| := by
    rw [abs_of_neg (by linarith), neg_sub]
  simp only [fillTrades, hside]
  rw [if_pos trivial, if_neg (not_le.mpr hneg),
      if_neg (show ¬(-q_epsilon < |a.position_qty| - o.qty ∧ |a.position_qty| - o.qty < q_epsilon) by
        rintro ⟨h1, h2⟩; linarith),
      if_pos (show |a.position_qty| - o.qty < 0 by linarith), habs]

theorem executeFill_fill_history (s : EngineState) (o : Order) (price : ℚ) (t : Nat) :
    (executeFill s o price t).1.fill_history
      = s.fill_history
        ++ (fillTrades (assetOf s o) o price (feeOf (assetOf s o) o price)
              (fpsOf (assetOf s o) o price) t s.next_id).2.1 := rfl

theorem executeFill_portfolio (s : EngineState) (o : Order) (price : ℚ) (t : Nat) :
    (executeFill s o price t).1.portfolio
      = updAsset s.portfolio o.symbol (fun _ =>
          (fillTrades (assetOf s o) o price (feeOf (assetOf s o) o price)
            (fpsOf (assetOf s o) o price) t s.next_id).1) := rfl

theorem checkFill_fst (o : Order) (a b c : ℚ) :
    ∃ q, (checkFill o a b c).1 = { o with qty := q } := by
  simp only [checkFill]
  split_ifs <;> exact ⟨_, rfl⟩

theorem executeFill_snd (s : EngineState) (o : Order) (p : ℚ) (t : Nat) :
    (executeFill s o p t).2
      = { o with status := Status.FILLED, filled_at := some t, fill_price := p } := rfl

theorem executeFill_equity_curve (s : EngineState) (o : Order) (p : ℚ) (t : Nat) :
    (executeFill s o p t).1.equity_curve = s.equity_curve := rfl

theorem cancelGroup_portfolio (s : EngineState) (g : String) :
    (cancelGroup s g).portfolio = s.portfolio := rfl

theorem cancelGroup_equity_curve (s : EngineState) (g : String) :
    (cancelGroup s g).equity_curve = s.equity_curve := rfl

theorem bracketChildren_mem (o : Order) (price : ℚ) (t n : Nat) :
    ∀ e ∈ (bracketChildren o price t n).1,
      e.status = Status.PENDING ∧ (∃ m, e.id = genId m)
      ∧ e.group_id = some (if truthyS o.group_id then o.group_id.getD "" else o.id)
      ∧ e.created_at = some t := by
  intro e he
  simp only [bracketChildren, List.mem_append] at he
  rcases he with he | he <;> split_ifs at he <;>
    simp only [List.mem_singleton, List.not_mem_nil] at he <;>
    (try subst he) <;>
    refine ⟨rfl, ⟨_, rfl⟩, ?_, rfl⟩ <;>
    simp_all [truthyS]

theorem executeFill_open_orders (s : EngineState) (o : Order) (p : ℚ) (t : Nat) :
    ∃ ch, (executeFill s o p t).1.open_orders = s.open_orders ++ ch
      ∧ ∀ e ∈ ch, e.status = Status.PENDING ∧ (∃ m, e.id = genId m)
          ∧ e.group_id = some (if truthyS o.group_id then o.group_id.getD "" else o.id)
          ∧ e.created_at = some t :=
  ⟨_, rfl, bracketChildren_mem _ p t _⟩

theorem cancelGroup_mem (s : EngineState) (g : String) :
    ∀ e ∈ (cancelGroup s g).open_orders, ∃ a ∈ s.open_orders,
      e.id = a.id ∧ e.group_id = a.group_id ∧ (e = a ∨ e.status = Status.CANCELED) := by
  intro e he
  simp only [cancelGroup, List.mem_map] at he
  obtain ⟨a, ha, rfl⟩ := he
  refine ⟨a, ha, ?_, ?_, ?_⟩ <;> split_ifs <;> simp

theorem cancelGroup_post (s : EngineState) (g : String) :
    ∀ e ∈ (cancelGroup s g).open_orders, e.group_id = some g → e.status ≠ Status.PENDING := by
  intro e he
  simp only [cancelGroup, List.mem_map] at he
  obtain ⟨a, ha, rfl⟩ := he
  by_cases hc : a.group_id = some g ∧ a.status = Status.PENDING
  · rw [if_pos hc]
    intro _
    simp
  · rw [if_neg hc]
    intro hgrp hp
    exact hc ⟨hgrp, hp⟩

theorem cancelGroup_cancels (s : EngineState) (g : String) :
    ∀ e ∈ s.open_orders, e.group_id = some g → e.status = Status.PENDING →
      ({ e with status := Status.CANCELED }) ∈ (cancelGroup s g).open_orders := by
  intro e he hg hp
  simp only [cancelGroup, List.mem_map]
  exact ⟨e, he, by rw [if_pos ⟨hg, hp⟩]⟩

theorem truthyS_some {g : String} (hg : g ≠ "") : truthyS (some g) = true := by
  simp [truthyS, hg]

theorem fillStepState_ids (s : EngineState) (i : Nat) (o1 : Order) (p : ℚ) (t : Nat)
    (ho1 : ∃ o0 ∈ s.open_orders, o0.id = o1.id) :
    ∀ e ∈ (fillStepState s i o1 p t).open_orders,
      (∃ o0 ∈ s.open_orders, o0.id = e.id) ∨ ∃ m, e.id = genId m := by
  obtain ⟨ch, hch, hchmem⟩ :=
    executeFill_open_orders { s with open_orders := s.open_orders.set i o1 } o1 p t
  have hs2 : ∀ e ∈ ((executeFill { s with open_orders := s.open_orders.set i o1 } o1 p t).1.open_orders.set i
        (executeFill { s with open_orders := s.open_orders.set i o1 } o1 p t).2),
      (∃ o0 ∈ s.open_orders, o0.id = e.id) ∨ ∃ m, e.id = genId m := by
    intro e he
    rcases List.mem_or_eq_of_mem_set he with he1 | rfl
    · rw [hch] at he1
      rcases List.mem_append.mp he1 with he2 | he2
      · rcases List.mem_or_eq_of_mem_set he2 with he3 | rfl
        · exact Or.inl ⟨e, he3, rfl⟩
        · exact Or.inl ho1
      · exact Or.inr (hchmem e he2).2.1
    · rw [executeFill_snd]
      exact Or.inl ho1
  intro e he
  simp only [fillStepState] at he
  by_cases hT : truthyS (executeFill { s with open_orders := s.open_orders.set i o1 } o1 p t).2.group_id
  · rw [if_pos hT] at he
    obtain ⟨a, ha, hid, _, _⟩ := cancelGroup_mem _ _ e he
    rcases hs2 a ha with ⟨o0, ho0, hid0⟩ | ⟨m, hm⟩
    · exact Or.inl ⟨o0, ho0, by rw [hid0, hid]⟩
    · exact Or.inr ⟨m, by rw [hid, hm]⟩
  · rw [if_neg hT] at he
    exact hs2 e he

theorem fillLoop_ids (b : Bar) :
    ∀ (fuel : Nat) (s : EngineState) (i : Nat),
      (∀ e ∈ (fillLoop fuel s b i).examined,
          (∃ o0 ∈ s.open_orders, o0.id = e.id) ∨ ∃ m, e.id = genId m)
      ∧ (∀ e ∈ (fillLoop fuel s b i).state.open_orders,
          (∃ o0 ∈ s.open_orders, o0.id = e.id) ∨ ∃ m, e.id = genId m) := by
  intro fuel
  induction fuel with
  | zero =>
    intro s i
    exact ⟨fun e he => absurd he (List.not_mem_nil e), fun e he => Or.inl ⟨e, he, rfl⟩⟩
  | succ n ih =>
    intro s i
    simp only [fillLoop]
    split_ifs with hlen hmatch
    · -- examined and possibly filled at index i
      have homem : s.open_orders.getD i default ∈ s.open_orders := by
        rw [List.getD_eq_getElem s.open_orders default hlen]
        exact List.getElem_mem hlen
      obtain ⟨q, hq⟩ := checkFill_fst (s.open_orders.getD i default) b.open_p b.high_p b.low_p
      have hcf1 : ∃ o0 ∈ s.open_orders,
          o0.id = (checkFill (s.open_orders.getD i default) b.open_p b.high_p b.low_p).1.id :=
        ⟨s.open_orders.getD i default, homem, by rw [hq]⟩
      cases hcf : (checkFill (s.open_orders.getD i default) b.open_p b.high_p b.low_p).2 with
      | none =>
        have hset : ∀ e ∈ (s.open_orders.set i
            (checkFill (s.open_orders.getD i default) b.open_p b.high_p b.low_p).1),
            (∃ o0 ∈ s.open_orders, o0.id = e.id) ∨ ∃ m, e.id = genId m := by
          intro e he
          rcases List.mem_or_eq_of_mem_set he with he1 | rfl
          · exact Or.inl ⟨e, he1, rfl⟩
          · exact Or.inl hcf1
        constructor
        · intro e he
          rcases List.mem_cons.mp he with rfl | he'
          · exact Or.inl ⟨_, homem, rfl⟩
          · rcases (ih _ (i + 1)).1 e he' with ⟨o0, ho0, hid⟩ | h
            · rcases hset o0 ho0 with ⟨o1, ho1, hid1⟩ | ⟨m, hm⟩
              · exact Or.inl ⟨o1, ho1, by rw [hid1, hid]⟩
              · exact Or.inr ⟨m, by rw [← hid, hm]⟩
            · exact Or.inr h
        · intro e he
          rcases (ih _ (i + 1)).2 e he with ⟨o0, ho0, hid⟩ | h
          · rcases hset o0 ho0 with ⟨o1, ho1, hid1⟩ | ⟨m, hm⟩
            · exact Or.inl ⟨o1, ho1, by rw [hid1, hid]⟩
            · exact Or.inr ⟨m, by rw [← hid, hm]⟩
          · exact Or.inr h
      | some p =>
        have hstep := fillStepState_ids s i
          (checkFill (s.open_orders.getD i default) b.open_p b.high_p b.low_p).1 p b.time hcf1
        constructor
        · intro e he
          rcases List.mem_cons.mp he with rfl | he'
          · exact Or.inl ⟨_, homem, rfl⟩
          · rcases (ih _ (i + 1)).1 e he' with ⟨o0, ho0, hid⟩ | h
            · rcases hstep o0 ho0 with ⟨o1, ho1, hid1⟩ | ⟨m, hm⟩
              · exact Or.inl ⟨o1, ho1, by rw [hid1, hid]⟩
              · exact Or.inr ⟨m, by rw [← hid, hm]⟩
            · exact Or.inr h
        · intro e he
          rcases (ih _ (i + 1)).2 e he with ⟨o0, ho0, hid⟩ | h
          · rcases hstep o0 ho0 with ⟨o1, ho1, hid1⟩ | ⟨m, hm⟩
            · exact Or.inl ⟨o1, ho1, by rw [hid1, hid]⟩
            · exact Or.inr ⟨m, by rw [← hid, hm]⟩
          · exact Or.inr h
    · exact ih s (i + 1)
    · exact ⟨fun e he => absurd he (List.not_mem_nil e), fun e he => Or.inl ⟨e, he, rfl⟩⟩

theorem registerAndMark_open_orders (s : EngineState) (b : Bar) :
    (registerAndMark s b).open_orders = s.open_orders := by
  unfold registerAndMark
  split_ifs <;> rfl

theorem genId_ne_short (m : Nat) (t : String) (ht : t.length < 3) : genId m ≠ t := by
  intro h
  have hl := congrArg String.length h
  rw [genId, String.length_append] at hl
  have h3 : ("gen" : String).length = 3 := rfl
  rw [h3] at hl
  omega

/-- Claim C4: an order submitted by the Strategy in response to bar t is
never in the set of orders examined for fill against bar t's prices: every
order examined during bar t carries the id of an order already in the book
before the bar (or an engine-generated bracket id), never the id of a fresh
strategy order; the fill loop runs strictly before the Strategy callback,
whose orders are appended afterwards with status PENDING, so they can fill
no earlier than the next bar for their symbol. -/
theorem no_lookahead (f : EngineState → Bar → List Order) (s : EngineState) (b : Bar)
    (o : Order) (ho : o ∈ f (processBar s b).state b)
    (hid : ∀ o0 ∈ s.open_orders, o0.id ≠ o.id)
    (hgen : ∀ m : Nat, genId m ≠ o.id) :
    (∀ e ∈ (processBar s b).examined, e.id ≠ o.id)
    ∧ { o with created_at := some b.time, status := Status.PENDING }
        ∈ (runStep f s b).open_orders
    ∧ (runStep f s b).open_orders
        = (processBar s b).state.open_orders
          ++ (f (processBar s b).state b).map
              (fun x => { x with created_at := some b.time, status := Status.PENDING }) := by
  refine ⟨?_, ?_, rfl⟩
  · intro e he
    have hex : e ∈ (fillLoop (3 * (registerAndMark s b).open_orders.length + 3)
        (registerAndMark s b) b 0).examined := he
    rcases (fillLoop_ids b _ (registerAndMark s b) 0).1 e hex with ⟨o0, ho0, hid0⟩ | ⟨m, hm⟩
    · rw [registerAndMark_open_orders] at ho0
      rw [← hid0]
      exact hid o0 ho0
    · rw [hm]
      exact hgen m
  · have h3 : (runStep f s b).open_orders
        = (processBar s b).state.open_orders
          ++ (f (processBar s b).state b).map
              (fun x => { x with created_at := some b.time, status := Status.PENDING }) := rfl
    rw [h3]
    exact List.mem_append_right _ (List.mem_map_of_mem _ ho)

theorem no_lookahead_witness :
    (∀ e ∈ (processBar sBracket bFlat100).examined, e.id ≠ oW.id)
    ∧ { oW with created_at := some bFlat100.time, status := Status.PENDING }
        ∈ (runStep (fun _ _ => [oW]) sBracket bFlat100).open_orders
    ∧ (runStep (fun _ _ => [oW]) sBracket bFlat100).open_orders
        = (processBar sBracket bFlat100).state.open_orders
          ++ ((fun (_ : EngineState) (_ : Bar) => [oW]) (processBar sBracket bFlat100).state
                bFlat100).map
              (fun x => { x with created_at := some bFlat100.time, status := Status.PENDING }) :=
  no_lookahead (fun _ _ => [oW]) sBracket bFlat100 oW (List.mem_singleton.mpr rfl)
    (by decide) (fun m => genId_ne_short m "w1" (by decide))

theorem fillTrades_last_price (a : AssetVars) (o : Order) (price fee fps : ℚ) (t n : Nat) :
    ((fillTrades a o price fee fps t n).1).last_price = a.last_price := by
  simp only [fillTrades]
  split_ifs <;> rfl

theorem marks_updAsset (l : List (String × AssetVars)) (sym : String) (f : AssetVars → AssetVars)
    (hf : ∀ a, lookupAsset l sym = some a → (f a).last_price = a.last_price) :
    marks (updAsset l sym f) = marks l := by
  induction l with
  | nil => rfl
  | cons hd tl ih =>
    obtain ⟨k, a⟩ := hd
    by_cases hk : k = sym
    · have ha : lookupAsset ((k, a) :: tl) sym = some a := by simp [lookupAsset, hk]
      simp only [updAsset, if_pos hk, marks, List.map_cons]
      rw [hf a ha]
    · simp only [updAsset, if_neg hk, marks, List.map_cons]
      have ih2 := ih (fun a2 ha2 => hf a2 (by simp [lookupAsset, hk, ha2]))
      simp only [marks] at ih2
      rw [ih2]

theorem executeFill_marks (s : EngineState) (o : Order) (p : ℚ) (t : Nat) :
    marks (executeFill s o p t).1.portfolio = marks s.portfolio := by
  rw [executeFill_portfolio]
  apply marks_updAsset
  intro a ha
  have hA : assetOf s o = a := by rw [assetOf, ha]; rfl
  rw [fillTrades_last_price, hA]

theorem fillStepState_marks (s : EngineState) (i : Nat) (o1 : Order) (p : ℚ) (t : Nat) :
    marks (fillStepState s i o1 p t).portfolio = marks s.portfolio := by
  simp only [fillStepState]
  by_cases hT : truthyS (executeFill { s with open_orders := s.open_orders.set i o1 } o1 p t).2.group_id
  · rw [if_pos hT, cancelGroup_portfolio]
    exact executeFill_marks _ o1 p t
  · rw [if_neg hT]
    exact executeFill_marks _ o1 p t

theorem fillStepState_equity_curve (s : EngineState) (i : Nat) (o1 : Order) (p : ℚ) (t : Nat) :
    (fillStepState s i o1 p t).equity_curve = s.equity_curve := by
  simp only [fillStepState]
  by_cases hT : truthyS (executeFill { s with open_orders := s.open_orders.set i o1 } o1 p t).2.group_id
  · rw [if_pos hT, cancelGroup_equity_curve]
    exact executeFill_equity_curve _ o1 p t
  · rw [if_neg hT]
    exact executeFill_equity_curve _ o1 p t

theorem fillLoop_marks_curve (b : Bar) :
    ∀ (fuel : Nat) (s : EngineState) (i : Nat),
      marks (fillLoop fuel s b i).state.portfolio = marks s.portfolio
      ∧ (fillLoop fuel s b i).state.equity_curve = s.equity_curve := by
  intro fuel
  induction fuel with
  | zero => exact fun s i => ⟨rfl, rfl⟩
  | succ n ih =>
    intro s i
    simp only [fillLoop]
    split_ifs with hlen hmatch
    · cases hcf : (checkFill (s.open_orders.getD i default) b.open_p b.high_p b.low_p).2 with
      | none => exact ih _ (i + 1)
      | some p =>
        obtain ⟨h1, h2⟩ := ih (fillStepState s i
          (checkFill (s.open_orders.getD i default) b.open_p b.high_p b.low_p).1 p b.time) (i + 1)
        exact ⟨h1.trans (fillStepState_marks s i _ p b.time),
               h2.trans (fillStepState_equity_curve s i _ p b.time)⟩
    · exact ih s (i + 1)
    · exact ⟨rfl, rfl⟩

theorem updAsset_keys (l : List (String × AssetVars)) (sym : String) (f : AssetVars → AssetVars) :
    (updAsset l sym f).map Prod.fst = l.map Prod.fst := by
  induction l with
  | nil => rfl
  | cons hd tl ih =>
    obtain ⟨k, a⟩ := hd
    by_cases hk : k = sym <;> simp [updAsset, hk, ih]

theorem mem_updAsset_ne (l : List (String × AssetVars)) (sym : String) (f : AssetVars → AssetVars) :
    ∀ p ∈ updAsset l sym f, p.1 ≠ sym → p ∈ l := by
  induction l with
  | nil => intro p hp; exact absurd hp (List.not_mem_nil p)
  | cons hd tl ih =>
    obtain ⟨k, a⟩ := hd
    intro p hp hne
    by_cases hk : k = sym
    · rw [updAsset, if_pos hk] at hp
      rcases List.mem_cons.mp hp with rfl | hp2
      · exact absurd hk hne
      · exact List.mem_cons_of_mem _ hp2
    · rw [updAsset, if_neg hk] at hp
      rcases List.mem_cons.mp hp with rfl | hp2
      · exact List.mem_cons_self _ _
      · exact List.mem_cons_of_mem _ (ih p hp2 hne)

theorem mem_updAsset_key (l : List (String × AssetVars)) (sym : String) (f : AssetVars → AssetVars)
    (hnd : (l.map Prod.fst).Nodup) :
    ∀ p ∈ updAsset l sym f, p.1 = sym → ∃ a, p.2 = f a := by
  induction l with
  | nil => intro p hp; exact absurd hp (List.not_mem_nil p)
  | cons hd tl ih =>
    obtain ⟨k, a⟩ := hd
    simp only [List.map_cons, List.nodup_cons] at hnd
    intro p hp hkey
    by_cases hk : k = sym
    · rw [updAsset, if_pos hk] at hp
      rcases List.mem_cons.mp hp with rfl | hp2
      · exact ⟨a, rfl⟩
      · exfalso
        apply hnd.1
        rw [hk, ← hkey]
        exact List.mem_map_of_mem Prod.fst hp2
    · rw [updAsset, if_neg hk] at hp
      rcases List.mem_cons.mp hp with rfl | hp2
      · exact absurd hkey hk
      · exact ih hnd.2 p hp2 hkey

theorem lookup_none_notmem (l : List (String × AssetVars)) (sym : String)
    (h : lookupAsset l sym = none) : sym ∉ l.map Prod.fst := by
  induction l with
  | nil => simp
  | cons hd tl ih =>
    obtain ⟨k, a⟩ := hd
    by_cases hk : k = sym
    · rw [lookupAsset, if_pos hk] at h
      exact absurd h (by simp)
    · rw [lookupAsset, if_neg hk] at h
      simp only [List.map_cons, List.mem_cons]
      rintro (rfl | hmem)
      · exact hk rfl
      · exact ih h hmem

theorem lookup_of_mem_nodup (l : List (String × AssetVars))
    (hnd : (l.map Prod.fst).Nodup) :
    ∀ p ∈ l, lookupAsset l p.1 = some p.2 := by
  induction l with
  | nil => intro p hp; exact absurd hp (List.not_mem_nil p)
  | cons hd tl ih =>
    obtain ⟨k, a⟩ := hd
    simp only [List.map_cons, List.nodup_cons] at hnd
    intro p hp
    rcases List.mem_cons.mp hp with rfl | hp2
    · rw [lookupAsset, if_pos rfl]
    · by_cases hk : k = p.1
      · exfalso
        apply hnd.1
        rw [hk]
        exact List.mem_map_of_mem Prod.fst hp2
      · rw [lookupAsset, if_neg hk]
        exact ih hnd.2 p hp2

theorem registerAndMark_equity_curve (s : EngineState) (b : Bar) :
    (registerAndMark s b).equity_curve = s.equity_curve := by
  unfold registerAndMark
  split_ifs <;> rfl

theorem registerAndMark_symbol_mark (s : EngineState) (b : Bar)
    (hnd : (s.portfolio.map Prod.fst).Nodup) :
    ∀ p ∈ (registerAndMark s b).portfolio, p.1 = b.symbol → p.2.last_price = b.close_p := by
  unfold registerAndMark
  split_ifs with hnone
  · have hnd2 : ((s.portfolio ++ [(b.symbol, ({ symbol := b.symbol } : AssetVars))]).map
        Prod.fst).Nodup := by
      rw [List.map_append]
      apply List.Nodup.append hnd (by simp)
      simp only [List.map_cons, List.map_nil]
      intro x hx hx2
      simp only [List.mem_singleton] at hx2
      subst hx2
      exact lookup_none_notmem s.portfolio b.symbol hnone hx
    intro p hp hkey
    obtain ⟨a, ha⟩ := mem_updAsset_key _ b.symbol _ hnd2 p hp hkey
    rw [ha]
  · intro p hp hkey
    obtain ⟨a, ha⟩ := mem_updAsset_key _ b.symbol _ hnd p hp hkey
    rw [ha]

theorem registerAndMark_other (s : EngineState) (b : Bar) :
    ∀ p ∈ (registerAndMark s b).portfolio, p.1 ≠ b.symbol → p ∈ s.portfolio := by
  unfold registerAndMark
  split_ifs with hnone
  · intro p hp hne
    have hp2 := mem_updAsset_ne _ b.symbol _ p hp hne
    rcases List.mem_append.mp hp2 with h | h
    · exact h
    · simp only [List.mem_singleton] at h
      exact absurd (congrArg Prod.fst h) hne
  · exact fun p hp hne => mem_updAsset_ne _ b.symbol _ p hp hne

theorem marks_mem (l l2 : List (String × AssetVars)) (h : marks l2 = marks l) :
    ∀ p ∈ l2, ∃ q ∈ l, q.1 = p.1 ∧ q.2.last_price = p.2.last_price := by
  intro p hp
  have hmem : (p.1, p.2.last_price) ∈ marks l := by
    rw [← h]
    exact List.mem_map_of_mem _ hp
  obtain ⟨q, hq, heq⟩ := List.mem_map.mp hmem
  obtain ⟨h1, h2⟩ := Prod.mk.injEq _ _ _ _ ▸ heq
  exact ⟨q, hq, h1, h2⟩

theorem sum_map_congr {α : Type} (l : List α) (f g : α → ℚ) (h : ∀ x ∈ l, f x = g x) :
    (l.map f).sum = (l.map g).sum := by
  induction l with
  | nil => rfl
  | cons hd tl ih =>
    simp only [List.map_cons, List.sum_cons]
    rw [h hd (List.mem_cons_self hd tl), ih (fun x hx => h x (List.mem_cons_of_mem hd hx))]

/-- Claim C8 counterexample: an order carrying BOTH an explicit stop price
(equal to 0.0) and a stop-loss percentage — so both directives are given —
is nevertheless constructed without error, because the Python exclusivity
check tests truthiness and 0.0 is falsy. The only-if direction of the
claimed equivalence fails at this input. -/
theorem order_validation_zero_directive_counterexample :
    postInit oBothStops = none
    ∧ oBothStops.stop_price ≠ none ∧ oBothStops.stop_loss_pct ≠ none := by
  refine ⟨?_, by simp [oBothStops], by simp [oBothStops]⟩
  simp only [postInit, oBothStops, truthy]
  norm_num
  rfl

set_option maxHeartbeats 1000000 in
/-- Claim C8 (amended): order construction fails if and only if one of: the
kind is LIMIT, STOP or STOP_LIMIT and no price is given; it is not the case
that exactly one of quantity and cash-amount is positive; both stop_price and
stop_loss_pct are given with truthy (nonzero) values; or both limit_price and
limit_pct are given with truthy (nonzero) values. Any other order constructs
successfully. -/
theorem order_validation_conditions (o : Order) :
    (postInit o).isSome = true ↔
      ((o.order_type = OrderType.LIMIT ∨ o.order_type = OrderType.STOP
          ∨ o.order_type = OrderType.STOP_LIMIT) ∧ o.price = none)
      ∨ ((o.qty ≤ 0 ∧ o.cash_amount ≤ 0) ∨ (0 < o.qty ∧ 0 < o.cash_amount))
      ∨ (truthy o.stop_loss_pct ∧ truthy o.stop_price)
      ∨ (truthy o.limit_pct ∧ truthy o.limit_price) := by
  unfold postInit
  split_ifs with h1 h2 h3 h4 h5 h6 <;>
    simp only [Option.isSome_some, Option.isSome_none, true_iff, false_iff] <;> tauto

/-- Claim C5: in the short-side (long-closing) branch, a computed residual
quantity that is negative with magnitude below 1e-9 is NOT snapped to zero:
selling 1 + 5e-10 units against a long position of exactly 1 leaves a stored
short position of -5e-10, with a dust flip trade, where the claim requires
exactly 0.0. This evaluates the code at the failing input. -/
theorem dust_residual_not_snapped :
    lookupAsset (executeFill sLongX oSellDust 110 5).1.portfolio "X"
      = some { symbol := "X", position_qty := -(1 / 2000000000), avg_entry_price := 110,
               last_price := 100, market_fee_bps := 0, limit_fee_bps := 0 }
    ∧ |(-(1 / 2000000000) : ℚ)| < q_epsilon ∧ (-(1 / 2000000000) : ℚ) ≠ 0 := by
  refine ⟨?_, by rw [abs_neg, abs_of_pos (by norm_num)]; norm_num [q_epsilon], by norm_num⟩
  rw [executeFill_portfolio]
  have ha : assetOf sLongX oSellDust = assetLongX := rfl
  rw [ha, fillTrades_short_flip assetLongX oSellDust 110
        (feeOf assetLongX oSellDust 110) (fpsOf assetLongX oSellDust 110) 5 sLongX.next_id
        rfl (by norm_num [assetLongX]) (by norm_num [assetLongX, oSellDust])]
  have hsym : oSellDust.symbol = "X" := rfl
  rw [hsym, lookup_updAsset_self sLongX.portfolio "X" _ assetLongX (by rfl)]
  simp only [Option.some.injEq]
  norm_num [assetLongX, oSellDust, AssetVars.mk.injEq]

/-- Claim C2 counterexample: closing a long of one unit entered at 100 via a
short-side market fill of one unit at 110 emits realized profit +10, whereas
the claim's formula for closing a long via a short-side fill,
(avg_entry - fill_price) times closing_qty, gives -10 at this input. -/
theorem reduce_pnl_sign_counterexample :
    (executeFill sLongX oSellOne 110 5).1.fill_history.map (fun tr => tr.pnl) = [10]
    ∧ (assetLongX.avg_entry_price - 110) * min |assetLongX.position_qty| oSellOne.qty ≠ (10 : ℚ) := by
  constructor
  · rw [executeFill_fill_history]
    have ha : assetOf sLongX oSellOne = assetLongX := rfl
    rw [ha, (fillTrades_short_close assetLongX oSellOne 110
          (feeOf assetLongX oSellOne 110) (fpsOf assetLongX oSellOne 110) 5 sLongX.next_id
          rfl (by norm_num [assetLongX]) (by norm_num [assetLongX, oSellOne])).1]
    norm_num [sLongX, assetLongX, oSellOne]
  · norm_num [assetLongX, oSellOne]


/-- Claim C2 (amended): when a fill reduces an opposite position, the emitted
closing Trade carries realized P and L equal to
(fill_price - avg_entry) times closing_qty when closing a long via a
short-side fill, and (avg_entry - fill_price) times closing_qty when closing
a short via a long-side fill (the two formulas are swapped relative to the
original claim), with commission prorated as
closing_qty times (total_commission / fill_qty); and when the fill quantity
exceeds the opposite quantity by at least the 1e-9 dust epsilon, a second
Trade with realized P and L zero and prorated commission opens the residual
quantity as a new position in the filled side's direction at
avg_entry_price equal to the fill price. -/
theorem reduce_and_flip_accounting (s : EngineState) (o : Order) (price : ℚ) (t : Nat)
    (a : AssetVars) (ha : lookupAsset s.portfolio o.symbol = some a) (hq : 0 < o.qty) :
    (o.side = Side.SHORT → 0 < a.position_qty →
      ∃ rest,
        (executeFill s o price t).1.fill_history
          = s.fill_history
            ++ { trade_id := genId s.next_id, order_id := o.id, symbol := o.symbol,
                 side := Side.SHORT, qty := min a.position_qty o.qty, price := price,
                 commission := min a.position_qty o.qty * (feeOf a o price / o.qty), time := t,
                 pnl := (price - a.avg_entry_price) * min a.position_qty o.qty } :: rest
        ∧ (o.qty ≤ a.position_qty → rest = [])
        ∧ (a.position_qty + q_epsilon ≤ o.qty →
            rest = [{ trade_id := genId (s.next_id + 1), order_id := o.id, symbol := o.symbol,
                      side := Side.SHORT, qty := o.qty - a.position_qty, price := price,
                      commission := (o.qty - a.position_qty) * (feeOf a o price / o.qty),
                      time := t, pnl := 0 }]
            ∧ lookupAsset (executeFill s o price t).1.portfolio o.symbol
                = some { a with position_qty := a.position_qty - o.qty,
                                avg_entry_price := price }))
    ∧ (o.side = Side.LONG → a.position_qty < 0 →
      ∃ rest,
        (executeFill s o price t).1.fill_history
          = s.fill_history
            ++ { trade_id := genId s.next_id, order_id := o.id, symbol := o.symbol,
                 side := Side.LONG, qty := min |a.position_qty| o.qty, price := price,
                 commission := min |a.position_qty| o.qty * (feeOf a o price / o.qty), time := t,
                 pnl := (a.avg_entry_price - price) * min |a.position_qty| o.qty } :: rest
        ∧ (o.qty ≤ |a.position_qty| → rest = [])
        ∧ (|a.position_qty| + q_epsilon ≤ o.qty →
            rest = [{ trade_id := genId (s.next_id + 1), order_id := o.id, symbol := o.symbol,
                      side := Side.LONG, qty := o.qty - |a.position_qty|, price := price,
                      commission := (o.qty - |a.position_qty|) * (feeOf a o price / o.qty),
                      time := t, pnl := 0 }]
            ∧ lookupAsset (executeFill s o price t).1.portfolio o.symbol
                = some { a with position_qty := o.qty - |a.position_qty|,
                                avg_entry_price := price })) := by
  have heps : 0 < q_epsilon := by norm_num [q_epsilon]
  have hA : assetOf s o = a := by rw [assetOf, ha]; rfl
  have hfps : fpsOf a o price = feeOf a o price / o.qty := by rw [fpsOf, if_pos hq]
  constructor
  · intro hside hpos
    by_cases hcase : a.position_qty < o.qty
    · have hft := fillTrades_short_flip a o price (feeOf a o price)
        (feeOf a o price / o.qty) t s.next_id hside hpos hcase
      refine ⟨[{ trade_id := genId (s.next_id + 1), order_id := o.id, symbol := o.symbol,
                 side := Side.SHORT, qty := o.qty - a.position_qty, price := price,
                 commission := (o.qty - a.position_qty) * (feeOf a o price / o.qty),
                 time := t, pnl := 0 }], ?_, ?_, ?_⟩
      · rw [executeFill_fill_history, hA, hfps, hft]
      · intro hle
        exact absurd hcase (not_lt.mpr hle)
      · intro hflip
        refine ⟨rfl, ?_⟩
        rw [executeFill_portfolio, hA, hfps, hft,
          lookup_updAsset_self s.portfolio o.symbol _ a ha]
    · have hft := fillTrades_short_close a o price (feeOf a o price)
        (feeOf a o price / o.qty) t s.next_id hside hpos (not_lt.mp hcase)
      refine ⟨[], ?_, fun _ => rfl, ?_⟩
      · rw [executeFill_fill_history, hA, hfps, hft.1]
      · intro hflip
        have := not_lt.mp hcase
        exfalso
        linarith
  · intro hside hneg
    by_cases hcase : |a.position_qty| + q_epsilon ≤ o.qty
    · have hft := fillTrades_long_flip a o price (feeOf a o price)
        (feeOf a o price / o.qty) t s.next_id hside hneg hcase
      refine ⟨[{ trade_id := genId (s.next_id + 1), order_id := o.id, symbol := o.symbol,
                 side := Side.LONG, qty := o.qty - |a.position_qty|, price := price,
                 commission := (o.qty - |a.position_qty|) * (feeOf a o price / o.qty),
                 time := t, pnl := 0 }], ?_, ?_, ?_⟩
      · rw [executeFill_fill_history, hA, hfps, hft]
      · intro hle
        exfalso
        linarith
      · intro hflip
        refine ⟨rfl, ?_⟩
        rw [executeFill_portfolio, hA, hfps, hft,
          lookup_updAsset_self s.portfolio o.symbol _ a ha]
    · have hclose : o.qty < |a.position_qty| + q_epsilon := not_le.mp hcase
      have hft := fillTrades_long_close a o price (feeOf a o price)
        (feeOf a o price / o.qty) t s.next_id hside hneg hclose
      refine ⟨[], ?_, fun _ => rfl, fun hflip => absurd hflip hcase⟩
      rw [executeFill_fill_history, hA, hfps, hft.1]

theorem reduce_and_flip_accounting_witness :
    (oSellOne.side = Side.SHORT → 0 < assetLongX.position_qty →
      ∃ rest,
        (executeFill sLongX oSellOne 110 5).1.fill_history
          = sLongX.fill_history
            ++ { trade_id := genId sLongX.next_id, order_id := oSellOne.id,
                 symbol := oSellOne.symbol, side := Side.SHORT,
                 qty := min assetLongX.position_qty oSellOne.qty, price := 110,
                 commission := min assetLongX.position_qty oSellOne.qty
                   * (feeOf assetLongX oSellOne 110 / oSellOne.qty), time := 5,
                 pnl := (110 - assetLongX.avg_entry_price)
                   * min assetLongX.position_qty oSellOne.qty } :: rest
        ∧ (oSellOne.qty ≤ assetLongX.position_qty → rest = [])
        ∧ (assetLongX.position_qty + q_epsilon ≤ oSellOne.qty →
            rest = [{ trade_id := genId (sLongX.next_id + 1), order_id := oSellOne.id,
                      symbol := oSellOne.symbol, side := Side.SHORT,
                      qty := oSellOne.qty - assetLongX.position_qty, price := 110,
                      commission := (oSellOne.qty - assetLongX.position_qty)
                        * (feeOf assetLongX oSellOne 110 / oSellOne.qty),
                      time := 5, pnl := 0 }]
            ∧ lookupAsset (executeFill sLongX oSellOne 110 5).1.portfolio oSellOne.symbol
                = some { assetLongX with
                         position_qty := assetLongX.position_qty - oSellOne.qty,
                         avg_entry_price := 110 }))
    ∧ (oSellOne.side = Side.LONG → assetLongX.position_qty < 0 →
      ∃ rest,
        (executeFill sLongX oSellOne 110 5).1.fill_history
          = sLongX.fill_history
            ++ { trade_id := genId sLongX.next_id, order_id := oSellOne.id,
                 symbol := oSellOne.symbol, side := Side.LONG,
                 qty := min |assetLongX.position_qty| oSellOne.qty, price := 110,
                 commission := min |assetLongX.position_qty| oSellOne.qty
                   * (feeOf assetLongX oSellOne 110 / oSellOne.qty), time := 5,
                 pnl := (assetLongX.avg_entry_price - 110)
                   * min |assetLongX.position_qty| oSellOne.qty } :: rest
        ∧ (oSellOne.qty ≤ |assetLongX.position_qty| → rest = [])
        ∧ (|assetLongX.position_qty| + q_epsilon ≤ oSellOne.qty →
            rest = [{ trade_id := genId (sLongX.next_id + 1), order_id := oSellOne.id,
                      symbol := oSellOne.symbol, side := Side.LONG,
                      qty := oSellOne.qty - |assetLongX.position_qty|, price := 110,
                      commission := (oSellOne.qty - |assetLongX.position_qty|)
                        * (feeOf assetLongX oSellOne 110 / oSellOne.qty),
                      time := 5, pnl := 0 }]
            ∧ lookupAsset (executeFill sLongX oSellOne 110 5).1.portfolio oSellOne.symbol
                = some { assetLongX with
                         position_qty := oSellOne.qty - |assetLongX.position_qty|,
                         avg_entry_price := 110 })) :=
  reduce_and_flip_accounting sLongX oSellOne 110 5 assetLongX rfl (by norm_num [oSellOne])


theorem iterB0 (n : Nat) :
    fillLoop (n + 1) sB1 bBracket 0
      = ⟨(fillLoop n sB2 bBracket 1).state,
         oParentBracket :: (fillLoop n sB2 bBracket 1).examined,
         oParentFilled :: (fillLoop n sB2 bBracket 1).filled⟩ := by
  simp only [fillLoop]
  norm_num [fillStepState, checkFill, executeFill, fillTrades, bracketChildren, cancelGroup,
    lookupAsset, updAsset, assetOf, feeOf, fpsOf, truthy, truthyS, genId, q_epsilon,
    sB1, sB2, bBracket, oParentBracket, oParentFilled, oStopChild, trParent]

theorem iterB1 (n : Nat) :
    fillLoop (n + 1) sB2 bBracket 1
      = ⟨(fillLoop n sB3 bBracket 2).state,
         oStopChild :: (fillLoop n sB3 bBracket 2).examined,
         oChildFilled :: (fillLoop n sB3 bBracket 2).filled⟩ := by
  have e1 : (OrderType.STOP = OrderType.MARKET) = False := by simp
  have e2 : (OrderType.STOP = OrderType.LIMIT) = False := by simp
  have e3 : (Side.SHORT = Side.LONG) = False := by simp
  have e4 : ("p1" = "") = False := by simp
  have e5 : (Status.FILLED = Status.PENDING) = False := by simp
  have e6 : ((none : Option String) = some "p1") = False := by simp
  simp only [fillLoop]
  norm_num [e1, e2, e3, e4, e5, e6, fillStepState, checkFill, executeFill, fillTrades,
    bracketChildren, cancelGroup,
    lookupAsset, updAsset, assetOf, feeOf, fpsOf, truthy, truthyS, genId, q_epsilon,
    sB2, sB3, bBracket, oParentBracket, oParentFilled, oStopChild, oChildFilled,
    trParent, trChild]

theorem iterB2 (n : Nat) :
    fillLoop n sB3 bBracket 2 = ⟨sB3, [], []⟩ := by
  cases n with
  | zero => rfl
  | succ m =>
    simp only [fillLoop]
    norm_num [sB3]

/-- Claim C10: bracket children spawned when a parent fills during bar t are
appended to the live open-order list while the fill loop is iterating over
it, so the same bar-t loop examines them: here the parent (group id null)
fills at the open and its freshly spawned stop child (created at the bar's
own timestamp) is examined and fills at its trigger 95 against the same
bar's low, in that very bar. -/
theorem bracket_child_same_bar_fill :
    (processBar sBracket bBracket).filled.map
        (fun o => (o.id, o.order_type, o.group_id, o.fill_price, o.created_at, o.status))
      = [("p1", OrderType.MARKET, none, 100, some 0, Status.FILLED),
         (genId 1, OrderType.STOP, some "p1", 95, some 1, Status.FILLED)]
    ∧ (processBar sBracket bBracket).examined.map (fun o => o.id) = ["p1", genId 1] := by
  have hreg : registerAndMark sBracket bBracket = sB1 := by
    have e0 : ∀ a : AssetVars, (some a = (none : Option AssetVars)) = False := fun a => by simp
    norm_num [registerAndMark, sBracket, sB1, lookupAsset, updAsset, bBracket, e0]
  have hfuel : 3 * sB1.open_orders.length + 3 = 6 := rfl
  have hloop : fillLoop 6 sB1 bBracket 0
      = ⟨sB3, [oParentBracket, oStopChild], [oParentFilled, oChildFilled]⟩ := by
    rw [show (6 : Nat) = 5 + 1 from rfl, iterB0 5,
        show (5 : Nat) = 4 + 1 from rfl, iterB1 4, iterB2 4]
  constructor
  · have h1 : (processBar sBracket bBracket).filled
        = (fillLoop (3 * (registerAndMark sBracket bBracket).open_orders.length + 3)
            (registerAndMark sBracket bBracket) bBracket 0).filled := rfl
    rw [h1, hreg, hfuel, hloop]
    rfl
  · have h2 : (processBar sBracket bBracket).examined
        = (fillLoop (3 * (registerAndMark sBracket bBracket).open_orders.length + 3)
            (registerAndMark sBracket bBracket) bBracket 0).examined := rfl
    rw [h2, hreg, hfuel, hloop]
    rfl


/-- Claim C3 counterexample: two pending market orders share the non-null
group id equal to the empty string; both fill in one replayed bar and
neither is ever canceled, because the cancellation guard tests Python
truthiness of the group id and the empty string is falsy. Two orders of the
same non-null group reach FILLED across the replay, refuting both the
cancellation and the at-most-one-fill parts of the claim as stated. -/
theorem oco_empty_group_counterexample :
    (processBar sOcoEmpty bFlat100).filled.map (fun o => (o.id, o.group_id, o.status))
      = [("a1", some "", Status.FILLED), ("a2", some "", Status.FILLED)] := by
  simp [processBar, registerAndMark, fillLoop, fillStepState, checkFill, executeFill,
    fillTrades, bracketChildren, cancelGroup, cleanupOrders, getEquity, lookupAsset,
    updAsset, assetOf, feeOf, fpsOf, truthy, truthyS, genId, q_epsilon, sOcoEmpty, bFlat100]


/-- Claim C1: for every bar processed by the replay loop, the equity
snapshot appended for that bar equals the cash balance plus the sum over all
symbols in the portfolio of position quantity times that symbol's last mark
price, where the current bar's symbol is marked at the bar's close and every
other symbol keeps its own last known mark from before the bar, for all
states (with duplicate-free portfolio keys) and hence all bar sequences and
order mixes. -/
theorem equity_snapshot_identity (s : EngineState) (b : Bar)
    (hnd : (s.portfolio.map Prod.fst).Nodup) :
    (processBar s b).state.equity_curve
      = s.equity_curve
        ++ [(b.time,
            (processBar s b).state.balance
              + ((processBar s b).state.portfolio.map (fun p =>
                  if p.2.position_qty ≠ 0 then
                    p.2.position_qty * (if p.1 = b.symbol then b.close_p else p.2.last_price)
                  else 0)).sum)]
    ∧ ∀ p ∈ (processBar s b).state.portfolio, p.1 ≠ b.symbol →
        ∃ a0, lookupAsset s.portfolio p.1 = some a0 ∧ a0.last_price = p.2.last_price := by
  set F := fillLoop (3 * (registerAndMark s b).open_orders.length + 3)
    (registerAndMark s b) b 0 with hF
  obtain ⟨hmarks, hcurve⟩ := fillLoop_marks_curve b
    (3 * (registerAndMark s b).open_orders.length + 3) (registerAndMark s b) 0
  rw [← hF] at hmarks hcurve
  have hA : (processBar s b).state.equity_curve
      = F.state.equity_curve ++ [(b.time, getEquity F.state)] := rfl
  have hB : (processBar s b).state.balance = F.state.balance := rfl
  have hC : (processBar s b).state.portfolio = F.state.portfolio := rfl
  have hkey : ∀ p ∈ F.state.portfolio, p.1 = b.symbol → p.2.last_price = b.close_p := by
    intro p hp hpkey
    obtain ⟨q, hq, hq1, hq2⟩ := marks_mem _ _ hmarks p hp
    rw [← hq2]
    exact registerAndMark_symbol_mark s b hnd q hq (by rw [hq1, hpkey])
  constructor
  · rw [hA, hB, hC, hcurve, registerAndMark_equity_curve]
    have hsum := sum_map_congr F.state.portfolio
      (fun p => if p.2.position_qty ≠ 0 then p.2.position_qty * p.2.last_price else 0)
      (fun p => if p.2.position_qty ≠ 0 then
          p.2.position_qty * (if p.1 = b.symbol then b.close_p else p.2.last_price) else 0)
      (by
        intro p hp
        dsimp only
        by_cases h0 : p.2.position_qty ≠ 0
        · rw [if_pos h0, if_pos h0]
          by_cases hps : p.1 = b.symbol
          · rw [if_pos hps, hkey p hp hps]
          · rw [if_neg hps]
        · rw [if_neg h0, if_neg h0])
    have hge : getEquity F.state
        = F.state.balance + (F.state.portfolio.map (fun p =>
            if p.2.position_qty ≠ 0 then
              p.2.position_qty * (if p.1 = b.symbol then b.close_p else p.2.last_price)
            else 0)).sum := by
      rw [getEquity, hsum]
    rw [hge]
  · intro p hp hne
    rw [hC] at hp
    obtain ⟨q, hq, hq1, hq2⟩ := marks_mem _ _ hmarks p hp
    have hqs : q ∈ s.portfolio := registerAndMark_other s b q hq (by rw [hq1]; exact hne)
    refine ⟨q.2, ?_, hq2⟩
    rw [← hq1]
    exact lookup_of_mem_nodup s.portfolio hnd q hqs

theorem equity_snapshot_identity_witness :
    ((processBar sLongX bFlat100).state.equity_curve
      = sLongX.equity_curve
        ++ [(bFlat100.time,
            (processBar sLongX bFlat100).state.balance
              + ((processBar sLongX bFlat100).state.portfolio.map (fun p =>
                  if p.2.position_qty ≠ 0 then
                    p.2.position_qty * (if p.1 = bFlat100.symbol then bFlat100.close_p
                      else p.2.last_price)
                  else 0)).sum)]
    ∧ ∀ p ∈ (processBar sLongX bFlat100).state.portfolio, p.1 ≠ bFlat100.symbol →
        ∃ a0, lookupAsset sLongX.portfolio p.1 = some a0
          ∧ a0.last_price = p.2.last_price) :=
  equity_snapshot_identity sLongX bFlat100 (by decide)


theorem fillStepState_P (s : EngineState) (i : Nat) (o1 : Order) (p : ℚ) (t : Nat)
    (g : String) (hgen : ∀ m, genId m ≠ g)
    (hP : ∀ e ∈ s.open_orders, e.id ≠ g) (ho1 : ∃ o0 ∈ s.open_orders, o0.id = o1.id) :
    ∀ e ∈ (fillStepState s i o1 p t).open_orders, e.id ≠ g := by
  intro e he
  rcases fillStepState_ids s i o1 p t ho1 e he with ⟨o0, ho0, hid0⟩ | ⟨m, hm⟩
  · rw [← hid0]
    exact hP o0 ho0
  · rw [hm]
    exact hgen m

theorem fillStepState_Q (s : EngineState) (i : Nat) (o1 : Order) (p : ℚ) (t : Nat)
    (g : String)
    (hQ : ∀ e ∈ s.open_orders, e.group_id = some g → e.status ≠ Status.PENDING)
    (ho1grp : o1.group_id ≠ some g) (ho1id : o1.id ≠ g) :
    ∀ e ∈ (fillStepState s i o1 p t).open_orders,
      e.group_id = some g → e.status ≠ Status.PENDING := by
  obtain ⟨ch, hch, hchmem⟩ :=
    executeFill_open_orders { s with open_orders := s.open_orders.set i o1 } o1 p t
  have hs2 : ∀ e ∈ ((executeFill { s with open_orders := s.open_orders.set i o1 } o1 p t).1.open_orders.set i
        (executeFill { s with open_orders := s.open_orders.set i o1 } o1 p t).2),
      e.group_id = some g → e.status ≠ Status.PENDING := by
    intro e he hegrp
    rcases List.mem_or_eq_of_mem_set he with he1 | rfl
    · rw [hch] at he1
      rcases List.mem_append.mp he1 with he2 | he2
      · rcases List.mem_or_eq_of_mem_set he2 with he3 | rfl
        · exact hQ e he3 hegrp
        · exact absurd hegrp ho1grp
      · obtain ⟨_, _, hgrp, _⟩ := hchmem e he2
        rw [hgrp] at hegrp
        by_cases hT : truthyS o1.group_id
        · rw [if_pos hT] at hegrp
          exfalso
          apply ho1grp
          obtain ⟨v, hv⟩ : ∃ v, o1.group_id = some v := by
            cases hog2 : o1.group_id with
            | none =>
              rw [hog2] at hT
              exact absurd hT (by simp [truthyS])
            | some v => exact ⟨v, rfl⟩
          rw [hv] at hegrp
          simp only [Option.getD_some, Option.some.injEq] at hegrp
          rw [hv, hegrp]
        · rw [if_neg hT] at hegrp
          simp only [Option.some.injEq] at hegrp
          exact absurd hegrp ho1id
    · rw [executeFill_snd]
      intro h
      exact Status.noConfusion h
  intro e he
  simp only [fillStepState] at he
  by_cases hT : truthyS (executeFill { s with open_orders := s.open_orders.set i o1 } o1 p t).2.group_id
  · rw [if_pos hT] at he
    intro hegrp
    obtain ⟨a, ha, _, hgrp, hcase⟩ := cancelGroup_mem _ _ e he
    rcases hcase with rfl | hcanc
    · exact hs2 _ ha hegrp
    · rw [hcanc]
      intro h
      exact Status.noConfusion h
  · rw [if_neg hT] at he
    exact hs2 e he

theorem fillStepState_estab (s : EngineState) (i : Nat) (o1 : Order) (p : ℚ) (t : Nat)
    (g : String) (hg : g ≠ "") (ho1grp : o1.group_id = some g) :
    ∀ e ∈ (fillStepState s i o1 p t).open_orders,
      e.group_id = some g → e.status ≠ Status.PENDING := by
  intro e he
  simp only [fillStepState] at he
  have hgrp2 : (executeFill { s with open_orders := s.open_orders.set i o1 } o1 p t).2.group_id
      = some g := by
    rw [executeFill_snd]
    exact ho1grp
  have hT : truthyS (executeFill { s with open_orders := s.open_orders.set i o1 } o1 p t).2.group_id
      = true := by
    rw [hgrp2]
    exact truthyS_some hg
  rw [if_pos hT] at he
  have hgd : (executeFill { s with open_orders := s.open_orders.set i o1 } o1 p t).2.group_id.getD ""
      = g := by
    rw [hgrp2]
    rfl
  rw [hgd] at he
  exact cancelGroup_post _ g e he


theorem fillLoop_group_done (b : Bar) (g : String) (hgen : ∀ m, genId m ≠ g) :
    ∀ (fuel : Nat) (s : EngineState) (i : Nat),
      (∀ e ∈ s.open_orders, e.id ≠ g) →
      (∀ e ∈ s.open_orders, e.group_id = some g → e.status ≠ Status.PENDING) →
      ((fillLoop fuel s b i).filled.filter (fun e => e.group_id = some g)) = []
      ∧ (∀ e ∈ (fillLoop fuel s b i).state.open_orders,
          e.group_id = some g → e.status ≠ Status.PENDING) := by
  intro fuel
  induction fuel with
  | zero => exact fun s i hP hQ => ⟨rfl, hQ⟩
  | succ n ih =>
    intro s i hP hQ
    simp only [fillLoop]
    split_ifs with hlen hmatch
    · have homem : s.open_orders.getD i default ∈ s.open_orders := by
        rw [List.getD_eq_getElem s.open_orders default hlen]
        exact List.getElem_mem hlen
      obtain ⟨q, hq⟩ := checkFill_fst (s.open_orders.getD i default) b.open_p b.high_p b.low_p
      have hcfid : (checkFill (s.open_orders.getD i default) b.open_p b.high_p b.low_p).1.id
          = (s.open_orders.getD i default).id := by rw [hq]
      have hcfgrp : (checkFill (s.open_orders.getD i default) b.open_p b.high_p b.low_p).1.group_id
          = (s.open_orders.getD i default).group_id := by rw [hq]
      have hogrp : (s.open_orders.getD i default).group_id ≠ some g := by
        intro hcon
        exact hQ _ homem hcon hmatch.2
      cases hcf : (checkFill (s.open_orders.getD i default) b.open_p b.high_p b.low_p).2 with
      | none =>
        apply ih
        · intro e he
          rcases List.mem_or_eq_of_mem_set he with h | rfl
          · exact hP e h
          · rw [hcfid]
            exact hP _ homem
        · intro e he
          rcases List.mem_or_eq_of_mem_set he with h | rfl
          · exact hQ e h
          · rw [hcfgrp]
            exact fun hcon => absurd hcon hogrp
      | some p =>
        have hP2 := fillStepState_P s i
          (checkFill (s.open_orders.getD i default) b.open_p b.high_p b.low_p).1 p b.time g hgen hP
          ⟨_, homem, hcfid.symm⟩
        have hQ2 := fillStepState_Q s i
          (checkFill (s.open_orders.getD i default) b.open_p b.high_p b.low_p).1 p b.time g hQ
          (by rw [hcfgrp]; exact hogrp) (by rw [hcfid]; exact hP _ homem)
        obtain ⟨hfil, hst⟩ := ih (fillStepState s i
          (checkFill (s.open_orders.getD i default) b.open_p b.high_p b.low_p).1 p b.time)
          (i + 1) hP2 hQ2
        refine ⟨?_, hst⟩
        have ho2g : (executeFill { s with
                open_orders := s.open_orders.set i
                  (checkFill (s.open_orders.getD i default) b.open_p b.high_p b.low_p).1 }
            (checkFill (s.open_orders.getD i default) b.open_p b.high_p b.low_p).1 p b.time).2.group_id
            ≠ some g := by
          rw [executeFill_snd]
          show (checkFill (s.open_orders.getD i default) b.open_p b.high_p b.low_p).1.group_id ≠ some g
          rw [hcfgrp]
          exact hogrp
        rw [List.filter_cons_of_neg]
        · exact hfil
        · simp only [decide_eq_true_eq]
          exact ho2g
    · exact ih s (i + 1) hP hQ
    · exact ⟨rfl, hQ⟩

theorem fillLoop_group_once (b : Bar) (g : String) (hg : g ≠ "") (hgen : ∀ m, genId m ≠ g) :
    ∀ (fuel : Nat) (s : EngineState) (i : Nat),
      (∀ e ∈ s.open_orders, e.id ≠ g) →
      (((fillLoop fuel s b i).filled.filter (fun e => e.group_id = some g)).length ≤ 1)
      ∧ ((fillLoop fuel s b i).filled.filter (fun e => e.group_id = some g) ≠ [] →
          ∀ e ∈ (fillLoop fuel s b i).state.open_orders,
            e.group_id = some g → e.status ≠ Status.PENDING) := by
  intro fuel
  induction fuel with
  | zero => exact fun s i hP => ⟨Nat.zero_le 1, fun hne => absurd rfl hne⟩
  | succ n ih =>
    intro s i hP
    simp only [fillLoop]
    split_ifs with hlen hmatch
    · have homem : s.open_orders.getD i default ∈ s.open_orders := by
        rw [List.getD_eq_getElem s.open_orders default hlen]
        exact List.getElem_mem hlen
      obtain ⟨q, hq⟩ := checkFill_fst (s.open_orders.getD i default) b.open_p b.high_p b.low_p
      have hcfid : (checkFill (s.open_orders.getD i default) b.open_p b.high_p b.low_p).1.id
          = (s.open_orders.getD i default).id := by rw [hq]
      have hcfgrp : (checkFill (s.open_orders.getD i default) b.open_p b.high_p b.low_p).1.group_id
          = (s.open_orders.getD i default).group_id := by rw [hq]
      cases hcf : (checkFill (s.open_orders.getD i default) b.open_p b.high_p b.low_p).2 with
      | none =>
        apply ih
        intro e he
        rcases List.mem_or_eq_of_mem_set he with h | rfl
        · exact hP e h
        · rw [hcfid]
          exact hP _ homem
      | some p =>
        have hP2 := fillStepState_P s i
          (checkFill (s.open_orders.getD i default) b.open_p b.high_p b.low_p).1 p b.time g hgen hP
          ⟨_, homem, hcfid.symm⟩
        by_cases hogrp : (s.open_orders.getD i default).group_id = some g
        · have hQ2 := fillStepState_estab s i
            (checkFill (s.open_orders.getD i default) b.open_p b.high_p b.low_p).1 p b.time g hg
            (by rw [hcfgrp]; exact hogrp)
          obtain ⟨hfil0, hst⟩ := fillLoop_group_done b g hgen n (fillStepState s i
            (checkFill (s.open_orders.getD i default) b.open_p b.high_p b.low_p).1 p b.time)
            (i + 1) hP2 hQ2
          have ho2g : (executeFill { s with
                  open_orders := s.open_orders.set i
                    (checkFill (s.open_orders.getD i default) b.open_p b.high_p b.low_p).1 }
              (checkFill (s.open_orders.getD i default) b.open_p b.high_p b.low_p).1 p
              b.time).2.group_id = some g := by
            rw [executeFill_snd]
            show (checkFill (s.open_orders.getD i default) b.open_p b.high_p b.low_p).1.group_id
              = some g
            rw [hcfgrp]
            exact hogrp
          constructor
          · rw [List.filter_cons_of_pos (by simp only [decide_eq_true_eq]; exact ho2g), hfil0]
            exact Nat.le_refl 1
          · intro _
            exact hst
        · have ho2g : (executeFill { s with
                  open_orders := s.open_orders.set i
                    (checkFill (s.open_orders.getD i default) b.open_p b.high_p b.low_p).1 }
              (checkFill (s.open_orders.getD i default) b.open_p b.high_p b.low_p).1 p
              b.time).2.group_id ≠ some g := by
            rw [executeFill_snd]
            show (checkFill (s.open_orders.getD i default) b.open_p b.high_p b.low_p).1.group_id
              ≠ some g
            rw [hcfgrp]
            exact hogrp
          obtain ⟨hlen1, himp⟩ := ih (fillStepState s i
            (checkFill (s.open_orders.getD i default) b.open_p b.high_p b.low_p).1 p b.time)
            (i + 1) hP2
          constructor
          · rw [List.filter_cons_of_neg (by simp only [decide_eq_true_eq]; exact ho2g)]
            exact hlen1
          · intro hne
            rw [List.filter_cons_of_neg (by simp only [decide_eq_true_eq]; exact ho2g)] at hne
            exact himp hne
    · exact ih s (i + 1) hP
    · exact ⟨Nat.zero_le 1, fun hne => absurd rfl hne⟩


/-- Claim C3 (amended): for every group id that is non-null AND non-empty
(Python truthiness), provided no order in the book carries the group id as
its own order id and the id is not an engine-generated bracket id: within a
processed bar at most one order of the group fills; once one fills, every
still-PENDING sibling (including bracket children spawned by that same fill)
is canceled by the group pass, so no order of the group survives in the
post-bar book; and the cancellation pass itself moves every PENDING sibling
to CANCELED. Orders submitted with the same group id after the fill (on
later bars) are not covered: the code cancels only at fill time. -/
theorem oco_cancellation (s : EngineState) (b : Bar) (g : String) (hg : g ≠ "")
    (hid : ∀ o0 ∈ s.open_orders, o0.id ≠ g) (hgen : ∀ m : Nat, genId m ≠ g) :
    (((processBar s b).filled.filter (fun e => e.group_id = some g)).length ≤ 1)
    ∧ ((processBar s b).filled.filter (fun e => e.group_id = some g) ≠ [] →
        ∀ e ∈ (processBar s b).state.open_orders, e.group_id ≠ some g)
    ∧ (∀ st : EngineState, ∀ e ∈ st.open_orders, e.group_id = some g →
        e.status = Status.PENDING →
        ({ e with status := Status.CANCELED }) ∈ (cancelGroup st g).open_orders) := by
  have hP : ∀ e ∈ (registerAndMark s b).open_orders, e.id ≠ g := by
    rw [registerAndMark_open_orders]
    exact hid
  obtain ⟨h1, h2⟩ := fillLoop_group_once b g hg hgen
    (3 * (registerAndMark s b).open_orders.length + 3) (registerAndMark s b) 0 hP
  have hfil : (processBar s b).filled
      = (fillLoop (3 * (registerAndMark s b).open_orders.length + 3)
          (registerAndMark s b) b 0).filled := rfl
  refine ⟨by rw [hfil]; exact h1, ?_, ?_⟩
  · intro hne e he hgrp
    rw [hfil] at hne
    have hQ := h2 hne
    have hmem := List.mem_filter.mp he
    exact hQ e hmem.1 hgrp (of_decide_eq_true hmem.2)
  · exact fun st e he hgrp hp => cancelGroup_cancels st g e he hgrp hp

theorem oco_cancellation_witness :
    (((processBar sBracket bFlat100).filled.filter
        (fun e => e.group_id = some "G")).length ≤ 1)
    ∧ ((processBar sBracket bFlat100).filled.filter (fun e => e.group_id = some "G") ≠ [] →
        ∀ e ∈ (processBar sBracket bFlat100).state.open_orders, e.group_id ≠ some "G")
    ∧ (∀ st : EngineState, ∀ e ∈ st.open_orders, e.group_id = some "G" →
        e.status = Status.PENDING →
        ({ e with status := Status.CANCELED }) ∈ (cancelGroup st "G").open_orders) :=
  oco_cancellation sBracket bFlat100 "G" (by decide) (by decide)
    (fun m => genId_ne_short m "G" (by decide))

end Backtester
